import Mathlib

/-!
# Verification of the job-board fungible-token contract

Shallow embedding of `src/contracts/job_board/src/contract.rs`, a Soroban
fungible token with owner-only minting, an emergency pause switch and an
owner-gated upgrade. The contract delegates ledger bookkeeping to the
OpenZeppelin stellar library (`Base::mint`, `Base::transfer`,
`Base::transfer_from`, `Base::approve`, `Base::burn`, `Base::burn_from`,
`pausable::pause`/`unpause`); that library's code is not part of this
repository, so those operations are modelled from the specification's
description of them, as noted on each definition. Soroban host semantics:
a panic anywhere in a call reverts every storage write of the call, so a
call is modelled as `CState → Except Err CState` (new state on success,
no state change on error); `require_auth` is modelled by a set (list) of
identities whose authorization proofs are valid for the call, and the
ledger sequence number is an extra input `seq`.
-/

namespace JobBoard

/-- Identities (Soroban `Address`), abstracted as naturals. -/
abbrev Addr := Nat

/-- Largest `i128` value, `2 ^ 127 - 1`. -/
def I128_MAX : Int := 170141183460469231731687303715884105727

/-- Smallest `i128` value, `-(2 ^ 127)`. -/
def I128_MIN : Int := -170141183460469231731687303715884105728

/-- `true` iff `v` is representable as an `i128`. -/
def okI128 (v : Int) : Bool := decide (I128_MIN ≤ v ∧ v ≤ I128_MAX)

/-- A stored allowance: remaining amount plus expiry sequence
(`live_until_ledger`). -/
structure Allowance where
  amount : Int
  live_until : Nat
deriving Repr, DecidableEq

/-- Lookup in an association list, with default `d` for absent keys. -/
def mapGet {α β : Type} [DecidableEq α] (d : β) (m : List (α × β)) (k : α) : β :=
  match m with
  | [] => d
  | (k', v) :: rest => if k' = k then v else mapGet d rest k

/-- Overwrite the binding of key `k` in an association list (insert if
absent). -/
def mapSet {α β : Type} [DecidableEq α] (m : List (α × β)) (k : α) (v : β) :
    List (α × β) :=
  match m with
  | [] => [(k, v)]
  | (k', v') :: rest => if k' = k then (k, v) :: rest else (k', v') :: mapSet rest k v

/-- The contract's persisted state: instance storage of the contract plus
the token's persistent entries, as one record. -/
structure CState where
  owner : Option Addr
  pausedFlag : Bool
  supply : Int
  balances : List (Addr × Int)
  allowances : List ((Addr × Addr) × Allowance)
  metaDecimals : Nat
  metaName : String
  metaSymbol : String
  codeVersion : Nat
deriving Repr, DecidableEq

/-- The error outcomes a call can surface. The first seven are the
spec's enumerated codes; `NegativeAmount` is the rejection of a negative
amount argument, which the spec states as the precondition `amount ≥ 0`
without assigning it a code. -/
inductive Err where
  | Unauthorized
  | ContractPaused
  | InsufficientBalance
  | InsufficientAllowance
  | AllowanceExpired
  | ArithmeticOverflow
  | NotInitialized
  | NegativeAmount
deriving Repr, DecidableEq

/-- Balance of `a` (0 when no entry is stored). -/
def getBal (s : CState) (a : Addr) : Int := mapGet 0 s.balances a

/-- Write the balance of `a`. -/
def setBal (s : CState) (a : Addr) (v : Int) : CState :=
  { s with balances := mapSet s.balances a v }

/-- Stored allowance for `(owner, spender)` (amount 0, expiry 0 when no
entry is stored). -/
def getAllow (s : CState) (o sp : Addr) : Allowance :=
  mapGet ⟨0, 0⟩ s.allowances (o, sp)

/-- Write the allowance for `(owner, spender)`. -/
def setAllow (s : CState) (o sp : Addr) (al : Allowance) : CState :=
  { s with allowances := mapSet s.allowances (o, sp) al }

/-- Modelled from the spec: the authorization oracle. `a.require_auth()`
succeeds iff the call carries a valid authorization proof for `a`;
rejection aborts the call (surfaced as `Unauthorized`). -/
def require_auth (auths : List Addr) (a : Addr) : Except Err Unit :=
  if a ∈ auths then .ok () else .error .Unauthorized

/-- Modelled from the spec: `Base::mint` of the missing stellar library.
Requires `amount ≥ 0`; increases `Balances[to]` and `TotalSupply` by
`amount`; fails `ArithmeticOverflow` if either leaves the `i128` range. -/
def baseMint (s : CState) (to_ : Addr) (amount : Int) : Except Err CState :=
  if amount < 0 then .error .NegativeAmount
  else if ¬ okI128 (getBal s to_ + amount) then .error .ArithmeticOverflow
  else if ¬ okI128 (s.supply + amount) then .error .ArithmeticOverflow
  else .ok { setBal s to_ (getBal s to_ + amount) with supply := s.supply + amount }

/-- Modelled from the spec: `Base::transfer` of the missing stellar
library, after its `from.require_auth()`. Requires a non-negative amount
(the spec: amounts "must never go negative for balances") and
`Balances[from] ≥ amount` (else `InsufficientBalance`); moves `amount`
from `from` to `to` with checked arithmetic on every mutation. -/
def baseTransfer (s : CState) (from_ to_ : Addr) (amount : Int) : Except Err CState :=
  if amount < 0 then .error .NegativeAmount
  else if getBal s from_ < amount then .error .InsufficientBalance
  else if ¬ okI128 (getBal s from_ - amount) then .error .ArithmeticOverflow
  else if ¬ okI128 (getBal (setBal s from_ (getBal s from_ - amount)) to_ + amount) then
    .error .ArithmeticOverflow
  else .ok (setBal (setBal s from_ (getBal s from_ - amount)) to_
    (getBal (setBal s from_ (getBal s from_ - amount)) to_ + amount))

/-- Modelled from the spec: `Base::burn` of the missing stellar library,
after its `from.require_auth()`. Symmetric to transfer with a void
destination: decreases `Balances[from]` and `TotalSupply` by `amount`. -/
def baseBurn (s : CState) (from_ : Addr) (amount : Int) : Except Err CState :=
  if amount < 0 then .error .NegativeAmount
  else if getBal s from_ < amount then .error .InsufficientBalance
  else if ¬ okI128 (getBal s from_ - amount) then .error .ArithmeticOverflow
  else if ¬ okI128 (s.supply - amount) then .error .ArithmeticOverflow
  else .ok { setBal s from_ (getBal s from_ - amount) with supply := s.supply - amount }

/-- Modelled from the spec: allowance spend-down of the missing stellar
library (`Base::transfer_from` / `burn_from` preamble). An allowance is
live when its expiry sequence is ≥ the current sequence; an expired
allowance fails `AllowanceExpired`, a live one with amount below the
request fails `InsufficientAllowance`; otherwise the stored amount is
decreased by the request (spend-down, not reset). -/
def spendAllowance (seq : Nat) (s : CState) (o sp : Addr) (amount : Int) :
    Except Err CState :=
  if (getAllow s o sp).live_until < seq then .error .AllowanceExpired
  else if (getAllow s o sp).amount < amount then .error .InsufficientAllowance
  else .ok (setAllow s o sp ⟨(getAllow s o sp).amount - amount, (getAllow s o sp).live_until⟩)

/-- Modelled from the spec: `Base::approve` of the missing stellar
library, after its `owner.require_auth()`. Overwrites (not adds to) the
allowance with exactly `(amount, live_until)`; amount 0 is a valid
revocation; the amount must be non-negative (spec invariant 3). -/
def baseApprove (s : CState) (o sp : Addr) (amount : Int) (live_until : Nat) :
    Except Err CState :=
  if amount < 0 then .error .NegativeAmount
  else .ok (setAllow s o sp ⟨amount, live_until⟩)

/-- Read the stored owner; `get(&OWNER).expect(..)` panics when unset,
surfaced as `NotInitialized` per the spec's taxonomy. -/
def getOwner (s : CState) : Except Err Addr :=
  match s.owner with
  | some o => .ok o
  | none => .error .NotInitialized

/-- Entrypoint `mint` (contract.rs lines 39-45): `#[when_not_paused]`,
then reads `OWNER`, requires the owner's authorization, then
`Base::mint`. -/
def mint (auths : List Addr) (s : CState) (account : Addr) (amount : Int) :
    Except Err CState :=
  if s.pausedFlag then .error .ContractPaused
  else match getOwner s with
    | .error e => .error e
    | .ok o =>
      match require_auth auths o with
      | .error e => .error e
      | .ok _ => baseMint s account amount

/-- Entrypoint `upgrade` (contract.rs lines 47-52): reads `OWNER`,
requires the owner's authorization, then swaps the running code. -/
def upgrade (auths : List Addr) (s : CState) (new_wasm : Nat) : Except Err CState :=
  match getOwner s with
  | .error e => .error e
  | .ok o =>
    match require_auth auths o with
    | .error e => .error e
    | .ok _ => .ok { s with codeVersion := new_wasm }

/-- Entrypoint `pause` (contract.rs lines 61-69): requires the caller's
authorization, then fails `Unauthorized` unless the caller is the stored
owner, then sets the pause flag (`pausable::pause`, modelled from the
spec as an idempotent re-assert of the flag). -/
def pause (auths : List Addr) (s : CState) (caller : Addr) : Except Err CState :=
  match require_auth auths caller with
  | .error e => .error e
  | .ok _ =>
    match getOwner s with
    | .error e => .error e
    | .ok o =>
      if o ≠ caller then .error .Unauthorized
      else .ok { s with pausedFlag := true }

/-- Entrypoint `unpause` (contract.rs lines 71-79): same guards as
`pause`, then clears the pause flag. -/
def unpause (auths : List Addr) (s : CState) (caller : Addr) : Except Err CState :=
  match require_auth auths caller with
  | .error e => .error e
  | .ok _ =>
    match getOwner s with
    | .error e => .error e
    | .ok o =>
      if o ≠ caller then .error .Unauthorized
      else .ok { s with pausedFlag := false }

/-- Entrypoint `transfer` (contract.rs lines 98-101): `#[when_not_paused]`,
then `Base::transfer` (which first requires `from`'s authorization). -/
def transfer (auths : List Addr) (s : CState) (from_ to_ : Addr) (amount : Int) :
    Except Err CState :=
  if s.pausedFlag then .error .ContractPaused
  else match require_auth auths from_ with
    | .error e => .error e
    | .ok _ => baseTransfer s from_ to_ amount

/-- Entrypoint `transfer_from` (contract.rs lines 103-106):
`#[when_not_paused]`, then `Base::transfer_from`: requires the spender's
authorization, spends the `(from, spender)` allowance, then transfers. -/
def transfer_from (auths : List Addr) (seq : Nat) (s : CState)
    (spender from_ to_ : Addr) (amount : Int) : Except Err CState :=
  if s.pausedFlag then .error .ContractPaused
  else match require_auth auths spender with
    | .error e => .error e
    | .ok _ =>
      match spendAllowance seq s from_ spender amount with
      | .error e => .error e
      | .ok s1 => baseTransfer s1 from_ to_ amount

/-- Entrypoint `approve` (contract.rs lines 108-110): not pause-gated;
`Base::approve` (which first requires the owner's authorization). -/
def approve (auths : List Addr) (s : CState) (o sp : Addr) (amount : Int)
    (live_until : Nat) : Except Err CState :=
  match require_auth auths o with
  | .error e => .error e
  | .ok _ => baseApprove s o sp amount live_until

/-- Entrypoint `burn` (contract.rs lines 127-130): `#[when_not_paused]`,
then `Base::burn` (which first requires `from`'s authorization). -/
def burn (auths : List Addr) (s : CState) (from_ : Addr) (amount : Int) :
    Except Err CState :=
  if s.pausedFlag then .error .ContractPaused
  else match require_auth auths from_ with
    | .error e => .error e
    | .ok _ => baseBurn s from_ amount

/-- Entrypoint `burn_from` (contract.rs lines 132-135):
`#[when_not_paused]`, then `Base::burn_from`: requires the spender's
authorization, spends the `(from, spender)` allowance, then burns. -/
def burn_from (auths : List Addr) (seq : Nat) (s : CState)
    (spender from_ : Addr) (amount : Int) : Except Err CState :=
  if s.pausedFlag then .error .ContractPaused
  else match require_auth auths spender with
    | .error e => .error e
    | .ok _ =>
      match spendAllowance seq s from_ spender amount with
      | .error e => .error e
      | .ok s1 => baseBurn s1 from_ amount

/-- Read-only `total_supply` (contract.rs lines 86-88). -/
def total_supply (s : CState) : Int := s.supply

/-- Read-only `balance` (contract.rs lines 90-92). -/
def balance (s : CState) (account : Addr) : Int := getBal s account

/-- Read-only `allowance` (contract.rs lines 94-96); modelled from the
spec: returns the currently stored amount, callers compare the expiry to
the sequence counter themselves. -/
def allowance (s : CState) (o sp : Addr) : Int := (getAllow s o sp).amount

/-- Read-only `decimals` (contract.rs lines 112-114). -/
def decimals (s : CState) : Nat := s.metaDecimals

/-- Read-only `name` (contract.rs lines 116-118). -/
def name (s : CState) : String := s.metaName

/-- Read-only `symbol` (contract.rs lines 120-122). -/
def symbol (s : CState) : String := s.metaSymbol

/-- Read-only `paused` (contract.rs lines 57-59). -/
def paused (s : CState) : Bool := s.pausedFlag

/-- The state of a freshly deployed, not yet constructed instance. -/
def initState : CState :=
  { owner := none, pausedFlag := false, supply := 0, balances := [],
    allowances := [], metaDecimals := 0, metaName := "", metaSymbol := "",
    codeVersion := 0 }

/-- The state right after `Base::set_metadata` in the constructor: the
fixed metadata 18, "JobBoardToken", "JBT" over a fresh instance. -/
def constructBase : CState :=
  { initState with
    metaDecimals := 18
    metaName := "JobBoardToken"
    metaSymbol := "JBT" }

/-- Entrypoint `__constructor` (contract.rs lines 33-37): sets the fixed
metadata (18, "JobBoardToken", "JBT"), mints `initial_supply` to `owner`
via `Base::mint`, and stores `OWNER`. -/
def __constructor (owner : Addr) (initial_supply : Int) : Except Err CState :=
  match baseMint constructBase owner initial_supply with
  | .error e => .error e
  | .ok s1 => .ok { s1 with owner := some owner }

/-- One invocation of a post-construction entrypoint, with its
arguments. -/
inductive Call where
  | mint (account : Addr) (amount : Int)
  | transfer (from_ to_ : Addr) (amount : Int)
  | transfer_from (spender from_ to_ : Addr) (amount : Int)
  | approve (o sp : Addr) (amount : Int) (live_until : Nat)
  | burn (from_ : Addr) (amount : Int)
  | burn_from (spender from_ : Addr) (amount : Int)
  | pause (caller : Addr)
  | unpause (caller : Addr)
  | upgrade (new_wasm : Nat)
deriving Repr, DecidableEq

/-- Dispatch a call against a state, given the identities whose
authorization proofs are valid and the current ledger sequence. -/
def exec (auths : List Addr) (seq : Nat) (s : CState) : Call → Except Err CState
  | .mint a amt => mint auths s a amt
  | .transfer f t amt => transfer auths s f t amt
  | .transfer_from sp f t amt => transfer_from auths seq s sp f t amt
  | .approve o sp amt lu => approve auths s o sp amt lu
  | .burn f amt => burn auths s f amt
  | .burn_from sp f amt => burn_from auths seq s sp f amt
  | .pause c => pause auths s c
  | .unpause c => unpause auths s c
  | .upgrade w => upgrade auths s w

/-- The state the storage engine holds after a call: the new state on
success, the pre-call state on any error (the host reverts every write
of a failed call). -/
def persisted (s : CState) (r : Except Err CState) : CState :=
  match r with
  | .ok s' => s'
  | .error _ => s

/-- States reachable by a successful construction followed by any
sequence of successful entrypoint calls, under arbitrary authorization
environments and sequence numbers. -/
inductive Reachable : CState → Prop where
  | construct (owner : Addr) (initial_supply : Int) (s : CState) :
      __constructor owner initial_supply = .ok s → Reachable s
  | step (auths : List Addr) (seq : Nat) (s s' : CState) (c : Call) :
      Reachable s → exec auths seq s c = .ok s' → Reachable s'

/-- Sum of the amounts recorded in a balance map. -/
def sumVals (m : List (Addr × Int)) : Int := (m.map Prod.snd).sum

/-- Well-formedness of a ledger state: the stored total supply is the
sum of all per-holder balances, every stored balance is non-negative,
and the supply fits in an `i128`. -/
def WF (s : CState) : Prop :=
  s.supply = sumVals s.balances ∧
  (∀ p ∈ s.balances, 0 ≤ p.2) ∧
  s.supply ≤ I128_MAX

section MapLemmas

variable {α : Type} [DecidableEq α]

theorem mapGet_mapSet_same {β : Type} (d : β) (m : List (α × β)) (k : α) (v : β) :
    mapGet d (mapSet m k v) k = v := by
  induction m with
  | nil => simp [mapGet, mapSet]
  | cons p rest ih =>
    obtain ⟨k', v'⟩ := p
    by_cases h : k' = k
    · simp [mapGet, mapSet, h]
    · simp [mapGet, mapSet, h, ih]

theorem mapGet_mapSet_ne {β : Type} (d : β) (m : List (α × β)) (k k' : α) (v : β)
    (h : k ≠ k') : mapGet d (mapSet m k v) k' = mapGet d m k' := by
  induction m with
  | nil => simp [mapGet, mapSet, h]
  | cons p rest ih =>
    obtain ⟨k0, v0⟩ := p
    by_cases hk : k0 = k
    · subst hk
      simp [mapGet, mapSet, h]
    · have step : mapSet ((k0, v0) :: rest) k v = (k0, v0) :: mapSet rest k v := by
        simp [mapSet, hk]
      rw [step]
      by_cases hk' : k0 = k'
      · simp [mapGet, hk']
      · simp [mapGet, hk', ih]

theorem sumVals_mapSet (m : List (Addr × Int)) (k : Addr) (v : Int) :
    sumVals (mapSet m k v) = sumVals m - mapGet 0 m k + v := by
  induction m with
  | nil => simp [sumVals, mapSet, mapGet]
  | cons p rest ih =>
    obtain ⟨k0, v0⟩ := p
    by_cases hk : k0 = k
    · simp [sumVals, mapSet, mapGet, hk]
      ring
    · simp only [sumVals, mapSet, mapGet, hk, if_false, List.map_cons, List.sum_cons]
      simp only [sumVals] at ih
      rw [ih]
      ring

theorem mapSet_forall {β : Type} (P : β → Prop) (m : List (α × β)) (k : α) (v : β)
    (hm : ∀ p ∈ m, P p.2) (hv : P v) : ∀ p ∈ mapSet m k v, P p.2 := by
  induction m with
  | nil =>
    intro p hp
    simp [mapSet] at hp
    simp [hp, hv]
  | cons q rest ih =>
    obtain ⟨k0, v0⟩ := q
    intro p hp
    by_cases hk : k0 = k
    · simp [mapSet, hk] at hp
      rcases hp with hp | hp
      · simp [hp, hv]
      · exact hm p (List.mem_cons_of_mem _ hp)
    · simp only [mapSet, hk, if_false, List.mem_cons] at hp
      rcases hp with hp | hp
      · exact hp ▸ hm (k0, v0) (List.mem_cons_self _ _)
      · exact ih (fun q hq => hm q (List.mem_cons_of_mem _ hq)) p hp

theorem mapGet_nonneg (m : List (Addr × Int)) (k : Addr)
    (hm : ∀ p ∈ m, 0 ≤ p.2) : 0 ≤ mapGet 0 m k := by
  induction m with
  | nil => simp [mapGet]
  | cons p rest ih =>
    obtain ⟨k0, v0⟩ := p
    by_cases hk : k0 = k
    · simpa [mapGet, hk] using hm (k0, v0) (List.mem_cons_self _ _)
    · simp only [mapGet, hk, if_false]
      exact ih (fun q hq => hm q (List.mem_cons_of_mem _ hq))

theorem sumVals_nonneg (m : List (Addr × Int)) (hm : ∀ p ∈ m, 0 ≤ p.2) :
    0 ≤ sumVals m := by
  induction m with
  | nil => simp [sumVals]
  | cons p rest ih =>
    obtain ⟨k0, v0⟩ := p
    have h0 : (0 : Int) ≤ v0 := hm (k0, v0) (List.mem_cons_self _ _)
    have h1 := ih (fun q hq => hm q (List.mem_cons_of_mem _ hq))
    simp only [sumVals, List.map_cons, List.sum_cons]
    simp only [sumVals] at h1
    omega

theorem mapGet_le_sumVals (m : List (Addr × Int)) (k : Addr)
    (hm : ∀ p ∈ m, 0 ≤ p.2) : mapGet 0 m k ≤ sumVals m := by
  induction m with
  | nil => simp [mapGet, sumVals]
  | cons p rest ih =>
    obtain ⟨k0, v0⟩ := p
    have h0 : (0 : Int) ≤ v0 := hm (k0, v0) (List.mem_cons_self _ _)
    have hrest : ∀ q ∈ rest, 0 ≤ q.2 := fun q hq => hm q (List.mem_cons_of_mem _ hq)
    have hs := sumVals_nonneg rest hrest
    by_cases hk : k0 = k
    · simp only [mapGet, hk, if_true, sumVals, List.map_cons, List.sum_cons]
      simp only [sumVals] at hs
      omega
    · have h1 := ih hrest
      simp only [mapGet, hk, if_false, sumVals, List.map_cons, List.sum_cons]
      simp only [sumVals] at h1
      omega

theorem mapGet_two_le_sumVals (m : List (Addr × Int)) (a b : Addr) (hab : a ≠ b)
    (hm : ∀ p ∈ m, 0 ≤ p.2) :
    mapGet 0 m a + mapGet 0 m b ≤ sumVals m := by
  induction m with
  | nil => simp [mapGet, sumVals]
  | cons p rest ih =>
    obtain ⟨k0, v0⟩ := p
    have h0 : (0 : Int) ≤ v0 := hm (k0, v0) (List.mem_cons_self _ _)
    have hrest : ∀ q ∈ rest, 0 ≤ q.2 := fun q hq => hm q (List.mem_cons_of_mem _ hq)
    have hsum : sumVals ((k0, v0) :: rest) = v0 + sumVals rest := by
      simp [sumVals]
    by_cases ha : k0 = a
    · subst ha
      have hb : k0 ≠ b := hab
      have e1 : mapGet 0 ((k0, v0) :: rest) k0 = v0 := by simp [mapGet]
      have e2 : mapGet 0 ((k0, v0) :: rest) b = mapGet 0 rest b := by
        simp [mapGet, hb]
      have h1 := mapGet_le_sumVals rest b hrest
      rw [e1, e2, hsum]
      omega
    · by_cases hb : k0 = b
      · subst hb
        have e1 : mapGet 0 ((k0, v0) :: rest) a = mapGet 0 rest a := by
          simp [mapGet, ha]
        have e2 : mapGet 0 ((k0, v0) :: rest) k0 = v0 := by simp [mapGet]
        have h1 := mapGet_le_sumVals rest a hrest
        rw [e1, e2, hsum]
        omega
      · have e1 : mapGet 0 ((k0, v0) :: rest) a = mapGet 0 rest a := by
          simp [mapGet, ha]
        have e2 : mapGet 0 ((k0, v0) :: rest) b = mapGet 0 rest b := by
          simp [mapGet, hb]
        have h1 := ih hrest
        rw [e1, e2, hsum]
        omega

end MapLemmas

theorem okI128_iff (v : Int) : okI128 v = true ↔ (I128_MIN ≤ v ∧ v ≤ I128_MAX) := by
  simp [okI128]

@[simp] theorem setBal_owner (s : CState) (a : Addr) (v : Int) :
    (setBal s a v).owner = s.owner := rfl

@[simp] theorem setBal_pausedFlag (s : CState) (a : Addr) (v : Int) :
    (setBal s a v).pausedFlag = s.pausedFlag := rfl

@[simp] theorem setBal_supply (s : CState) (a : Addr) (v : Int) :
    (setBal s a v).supply = s.supply := rfl

@[simp] theorem setBal_balances (s : CState) (a : Addr) (v : Int) :
    (setBal s a v).balances = mapSet s.balances a v := rfl

@[simp] theorem setBal_allowances (s : CState) (a : Addr) (v : Int) :
    (setBal s a v).allowances = s.allowances := rfl

@[simp] theorem setBal_metaDecimals (s : CState) (a : Addr) (v : Int) :
    (setBal s a v).metaDecimals = s.metaDecimals := rfl

@[simp] theorem setBal_metaName (s : CState) (a : Addr) (v : Int) :
    (setBal s a v).metaName = s.metaName := rfl

@[simp] theorem setBal_metaSymbol (s : CState) (a : Addr) (v : Int) :
    (setBal s a v).metaSymbol = s.metaSymbol := rfl

@[simp] theorem setBal_codeVersion (s : CState) (a : Addr) (v : Int) :
    (setBal s a v).codeVersion = s.codeVersion := rfl

@[simp] theorem setAllow_owner (s : CState) (o sp : Addr) (al : Allowance) :
    (setAllow s o sp al).owner = s.owner := rfl

@[simp] theorem setAllow_pausedFlag (s : CState) (o sp : Addr) (al : Allowance) :
    (setAllow s o sp al).pausedFlag = s.pausedFlag := rfl

@[simp] theorem setAllow_supply (s : CState) (o sp : Addr) (al : Allowance) :
    (setAllow s o sp al).supply = s.supply := rfl

@[simp] theorem setAllow_balances (s : CState) (o sp : Addr) (al : Allowance) :
    (setAllow s o sp al).balances = s.balances := rfl

@[simp] theorem setAllow_allowances (s : CState) (o sp : Addr) (al : Allowance) :
    (setAllow s o sp al).allowances = mapSet s.allowances (o, sp) al := rfl

@[simp] theorem setAllow_metaDecimals (s : CState) (o sp : Addr) (al : Allowance) :
    (setAllow s o sp al).metaDecimals = s.metaDecimals := rfl

@[simp] theorem setAllow_metaName (s : CState) (o sp : Addr) (al : Allowance) :
    (setAllow s o sp al).metaName = s.metaName := rfl

@[simp] theorem setAllow_metaSymbol (s : CState) (o sp : Addr) (al : Allowance) :
    (setAllow s o sp al).metaSymbol = s.metaSymbol := rfl

@[simp] theorem setAllow_codeVersion (s : CState) (o sp : Addr) (al : Allowance) :
    (setAllow s o sp al).codeVersion = s.codeVersion := rfl

theorem getBal_setBal_same (s : CState) (a : Addr) (v : Int) :
    getBal (setBal s a v) a = v := by
  simp [getBal, mapGet_mapSet_same]

theorem getBal_setBal_ne (s : CState) (a a' : Addr) (v : Int) (h : a ≠ a') :
    getBal (setBal s a v) a' = getBal s a' := by
  simp [getBal, mapGet_mapSet_ne _ _ _ _ _ h]

theorem getBal_setAllow (s : CState) (o sp : Addr) (al : Allowance) (a : Addr) :
    getBal (setAllow s o sp al) a = getBal s a := by
  simp [getBal]

theorem getAllow_setBal (s : CState) (a : Addr) (v : Int) (o sp : Addr) :
    getAllow (setBal s a v) o sp = getAllow s o sp := by
  simp [getAllow]

theorem getAllow_setAllow_same (s : CState) (o sp : Addr) (al : Allowance) :
    getAllow (setAllow s o sp al) o sp = al := by
  simp [getAllow, mapGet_mapSet_same]

/-- Success inversion for `baseMint`: the checks passed and the result
state is the expected one. -/
theorem baseMint_ok (s : CState) (to_ : Addr) (amount : Int) (s' : CState)
    (h : baseMint s to_ amount = .ok s') :
    0 ≤ amount ∧ getBal s to_ + amount ≤ I128_MAX ∧ s.supply + amount ≤ I128_MAX ∧
    s' = { setBal s to_ (getBal s to_ + amount) with supply := s.supply + amount } := by
  unfold baseMint at h
  split_ifs at h with h1 h2 h3
  have h2' := (okI128_iff _).mp h2
  have h3' := (okI128_iff _).mp h3
  cases h
  exact ⟨by omega, h2'.2, h3'.2, rfl⟩

/-- Success inversion for `baseTransfer`. -/
theorem baseTransfer_ok (s : CState) (from_ to_ : Addr) (amount : Int) (s' : CState)
    (h : baseTransfer s from_ to_ amount = .ok s') :
    0 ≤ amount ∧ amount ≤ getBal s from_ ∧
    s' = setBal (setBal s from_ (getBal s from_ - amount)) to_
          (getBal (setBal s from_ (getBal s from_ - amount)) to_ + amount) := by
  unfold baseTransfer at h
  split_ifs at h with h1 h2 h3 h4
  cases h
  exact ⟨by omega, by omega, rfl⟩

/-- Success inversion for `baseBurn`. -/
theorem baseBurn_ok (s : CState) (from_ : Addr) (amount : Int) (s' : CState)
    (h : baseBurn s from_ amount = .ok s') :
    0 ≤ amount ∧ amount ≤ getBal s from_ ∧
    s' = { setBal s from_ (getBal s from_ - amount) with supply := s.supply - amount } := by
  unfold baseBurn at h
  split_ifs at h with h1 h2 h3 h4
  cases h
  exact ⟨by omega, by omega, rfl⟩

/-- Success inversion for `spendAllowance`. -/
theorem spendAllowance_ok (seq : Nat) (s : CState) (o sp : Addr) (amount : Int)
    (s' : CState) (h : spendAllowance seq s o sp amount = .ok s') :
    seq ≤ (getAllow s o sp).live_until ∧ amount ≤ (getAllow s o sp).amount ∧
    s' = setAllow s o sp ⟨(getAllow s o sp).amount - amount, (getAllow s o sp).live_until⟩ := by
  unfold spendAllowance at h
  split_ifs at h with h1 h2
  cases h
  exact ⟨by omega, by omega, rfl⟩

/-- Success inversion for `baseApprove`. -/
theorem baseApprove_ok (s : CState) (o sp : Addr) (amount : Int) (live_until : Nat)
    (s' : CState) (h : baseApprove s o sp amount live_until = .ok s') :
    0 ≤ amount ∧ s' = setAllow s o sp ⟨amount, live_until⟩ := by
  unfold baseApprove at h
  split_ifs at h with h1
  cases h
  exact ⟨by omega, rfl⟩

/-- `getOwner` succeeds exactly on the stored owner. -/
theorem getOwner_ok (s : CState) (o : Addr) (h : getOwner s = .ok o) :
    s.owner = some o := by
  unfold getOwner at h
  rcases ho : s.owner with _ | o'
  · rw [ho] at h
    exact Except.noConfusion h
  · rw [ho] at h
    simp only [] at h
    cases h
    rfl

/-- `require_auth` succeeds exactly on authorized identities. -/
theorem require_auth_ok (auths : List Addr) (a : Addr) (u : Unit)
    (h : require_auth auths a = .ok u) : a ∈ auths := by
  unfold require_auth at h
  split_ifs at h with h1
  exact h1

/-- Success inversion for the `mint` entrypoint. -/
theorem mint_ok (auths : List Addr) (s : CState) (account : Addr) (amount : Int)
    (s' : CState) (h : mint auths s account amount = .ok s') :
    s.pausedFlag = false ∧
    ∃ o, s.owner = some o ∧ o ∈ auths ∧ baseMint s account amount = .ok s' := by
  unfold mint at h
  split_ifs at h with hp
  split at h
  next e heq => exact Except.noConfusion h
  next o heq =>
    split at h
    next e heq2 => exact Except.noConfusion h
    next u heq2 =>
      exact ⟨by simpa using hp, o, getOwner_ok s o heq,
        require_auth_ok auths o u heq2, h⟩

/-- Success inversion for the `transfer` entrypoint. -/
theorem transfer_ok (auths : List Addr) (s : CState) (from_ to_ : Addr)
    (amount : Int) (s' : CState) (h : transfer auths s from_ to_ amount = .ok s') :
    s.pausedFlag = false ∧ from_ ∈ auths ∧ baseTransfer s from_ to_ amount = .ok s' := by
  unfold transfer at h
  split_ifs at h with hp
  split at h
  next e heq => exact Except.noConfusion h
  next u heq => exact ⟨by simpa using hp, require_auth_ok auths from_ u heq, h⟩

/-- Success inversion for the `transfer_from` entrypoint. -/
theorem transfer_from_ok (auths : List Addr) (seq : Nat) (s : CState)
    (spender from_ to_ : Addr) (amount : Int) (s' : CState)
    (h : transfer_from auths seq s spender from_ to_ amount = .ok s') :
    s.pausedFlag = false ∧ spender ∈ auths ∧
    ∃ s1, spendAllowance seq s from_ spender amount = .ok s1 ∧
      baseTransfer s1 from_ to_ amount = .ok s' := by
  unfold transfer_from at h
  split_ifs at h with hp
  split at h
  next e heq => exact Except.noConfusion h
  next u heq =>
    split at h
    next e heq2 => exact Except.noConfusion h
    next s1 heq2 =>
      exact ⟨by simpa using hp, require_auth_ok auths spender u heq, s1, heq2, h⟩

/-- Success inversion for the `approve` entrypoint. -/
theorem approve_ok (auths : List Addr) (s : CState) (o sp : Addr) (amount : Int)
    (live_until : Nat) (s' : CState)
    (h : approve auths s o sp amount live_until = .ok s') :
    o ∈ auths ∧ baseApprove s o sp amount live_until = .ok s' := by
  unfold approve at h
  split at h
  next e heq => exact Except.noConfusion h
  next u heq => exact ⟨require_auth_ok auths o u heq, h⟩

/-- Success inversion for the `burn` entrypoint. -/
theorem burn_ok (auths : List Addr) (s : CState) (from_ : Addr) (amount : Int)
    (s' : CState) (h : burn auths s from_ amount = .ok s') :
    s.pausedFlag = false ∧ from_ ∈ auths ∧ baseBurn s from_ amount = .ok s' := by
  unfold burn at h
  split_ifs at h with hp
  split at h
  next e heq => exact Except.noConfusion h
  next u heq => exact ⟨by simpa using hp, require_auth_ok auths from_ u heq, h⟩

/-- Success inversion for the `burn_from` entrypoint. -/
theorem burn_from_ok (auths : List Addr) (seq : Nat) (s : CState)
    (spender from_ : Addr) (amount : Int) (s' : CState)
    (h : burn_from auths seq s spender from_ amount = .ok s') :
    s.pausedFlag = false ∧ spender ∈ auths ∧
    ∃ s1, spendAllowance seq s from_ spender amount = .ok s1 ∧
      baseBurn s1 from_ amount = .ok s' := by
  unfold burn_from at h
  split_ifs at h with hp
  split at h
  next e heq => exact Except.noConfusion h
  next u heq =>
    split at h
    next e heq2 => exact Except.noConfusion h
    next s1 heq2 =>
      exact ⟨by simpa using hp, require_auth_ok auths spender u heq, s1, heq2, h⟩

/-- Success inversion for the `pause` entrypoint. -/
theorem pause_ok (auths : List Addr) (s : CState) (caller : Addr) (s' : CState)
    (h : pause auths s caller = .ok s') :
    caller ∈ auths ∧ s.owner = some caller ∧ s' = { s with pausedFlag := true } := by
  unfold pause at h
  split at h
  next e heq => exact Except.noConfusion h
  next u heq =>
    split at h
    next e heq2 => exact Except.noConfusion h
    next o heq2 =>
      split_ifs at h with h2
      cases h
      have hoc : o = caller := not_not.mp h2
      exact ⟨require_auth_ok auths caller u heq, hoc ▸ getOwner_ok s o heq2, rfl⟩

/-- Success inversion for the `unpause` entrypoint. -/
theorem unpause_ok (auths : List Addr) (s : CState) (caller : Addr) (s' : CState)
    (h : unpause auths s caller = .ok s') :
    caller ∈ auths ∧ s.owner = some caller ∧ s' = { s with pausedFlag := false } := by
  unfold unpause at h
  split at h
  next e heq => exact Except.noConfusion h
  next u heq =>
    split at h
    next e heq2 => exact Except.noConfusion h
    next o heq2 =>
      split_ifs at h with h2
      cases h
      have hoc : o = caller := not_not.mp h2
      exact ⟨require_auth_ok auths caller u heq, hoc ▸ getOwner_ok s o heq2, rfl⟩

/-- Success inversion for the `upgrade` entrypoint. -/
theorem upgrade_ok (auths : List Addr) (s : CState) (new_wasm : Nat) (s' : CState)
    (h : upgrade auths s new_wasm = .ok s') :
    ∃ o, s.owner = some o ∧ o ∈ auths ∧ s' = { s with codeVersion := new_wasm } := by
  unfold upgrade at h
  split at h
  next e heq => exact Except.noConfusion h
  next o heq =>
    split at h
    next e heq2 => exact Except.noConfusion h
    next u heq2 =>
      cases h
      exact ⟨o, getOwner_ok s o heq, require_auth_ok auths o u heq2, rfl⟩

theorem WF_congr (s s' : CState) (hwf : WF s) (hb : s'.balances = s.balances)
    (hs : s'.supply = s.supply) : WF s' := by
  unfold WF at hwf ⊢
  rw [hb, hs]
  exact hwf

theorem WF_baseMint (s : CState) (to_ : Addr) (amount : Int) (s' : CState)
    (hwf : WF s) (h : baseMint s to_ amount = .ok s') : WF s' := by
  obtain ⟨hamt, hbal, hsup, hs'⟩ := baseMint_ok s to_ amount s' h
  obtain ⟨h1, h2, h3⟩ := hwf
  subst hs'
  refine ⟨?_, ?_, ?_⟩
  · show s.supply + amount = sumVals (mapSet s.balances to_ (getBal s to_ + amount))
    rw [sumVals_mapSet]
    have : mapGet 0 s.balances to_ = getBal s to_ := rfl
    omega
  · show ∀ p ∈ mapSet s.balances to_ (getBal s to_ + amount), 0 ≤ p.2
    refine mapSet_forall _ _ _ _ h2 ?_
    have := mapGet_nonneg s.balances to_ h2
    show 0 ≤ getBal s to_ + amount
    have : (0 : Int) ≤ getBal s to_ := this
    omega
  · exact hsup

theorem WF_baseTransfer (s : CState) (from_ to_ : Addr) (amount : Int) (s' : CState)
    (hwf : WF s) (h : baseTransfer s from_ to_ amount = .ok s') : WF s' := by
  obtain ⟨hamt, hle, hs'⟩ := baseTransfer_ok s from_ to_ amount s' h
  obtain ⟨h1, h2, h3⟩ := hwf
  subst hs'
  have hinner : ∀ p ∈ mapSet s.balances from_ (getBal s from_ - amount), 0 ≤ p.2 := by
    refine mapSet_forall _ _ _ _ h2 ?_
    show 0 ≤ getBal s from_ - amount
    omega
  refine ⟨?_, ?_, ?_⟩
  · show s.supply =
      sumVals (mapSet (mapSet s.balances from_ (getBal s from_ - amount)) to_
        (getBal (setBal s from_ (getBal s from_ - amount)) to_ + amount))
    rw [sumVals_mapSet, sumVals_mapSet]
    have e1 : mapGet 0 s.balances from_ = getBal s from_ := rfl
    have e2 : mapGet 0 (mapSet s.balances from_ (getBal s from_ - amount)) to_ =
        getBal (setBal s from_ (getBal s from_ - amount)) to_ := rfl
    omega
  · show ∀ p ∈ mapSet (mapSet s.balances from_ (getBal s from_ - amount)) to_
        (getBal (setBal s from_ (getBal s from_ - amount)) to_ + amount), 0 ≤ p.2
    refine mapSet_forall _ _ _ _ hinner ?_
    have := mapGet_nonneg (mapSet s.balances from_ (getBal s from_ - amount)) to_ hinner
    show 0 ≤ getBal (setBal s from_ (getBal s from_ - amount)) to_ + amount
    have e : getBal (setBal s from_ (getBal s from_ - amount)) to_ =
        mapGet 0 (mapSet s.balances from_ (getBal s from_ - amount)) to_ := rfl
    omega
  · exact h3

theorem WF_baseBurn (s : CState) (from_ : Addr) (amount : Int) (s' : CState)
    (hwf : WF s) (h : baseBurn s from_ amount = .ok s') : WF s' := by
  obtain ⟨hamt, hle, hs'⟩ := baseBurn_ok s from_ amount s' h
  obtain ⟨h1, h2, h3⟩ := hwf
  subst hs'
  refine ⟨?_, ?_, ?_⟩
  · show s.supply - amount = sumVals (mapSet s.balances from_ (getBal s from_ - amount))
    rw [sumVals_mapSet]
    have : mapGet 0 s.balances from_ = getBal s from_ := rfl
    omega
  · show ∀ p ∈ mapSet s.balances from_ (getBal s from_ - amount), 0 ≤ p.2
    refine mapSet_forall _ _ _ _ h2 ?_
    show 0 ≤ getBal s from_ - amount
    omega
  · show s.supply - amount ≤ I128_MAX
    omega

theorem WF_spendAllowance (seq : Nat) (s : CState) (o sp : Addr) (amount : Int)
    (s' : CState) (hwf : WF s) (h : spendAllowance seq s o sp amount = .ok s') :
    WF s' := by
  obtain ⟨_, _, hs'⟩ := spendAllowance_ok seq s o sp amount s' h
  subst hs'
  exact WF_congr s _ hwf rfl rfl

theorem WF_exec (auths : List Addr) (seq : Nat) (s : CState) (c : Call) (s' : CState)
    (hwf : WF s) (h : exec auths seq s c = .ok s') : WF s' := by
  cases c with
  | mint a amt =>
    obtain ⟨_, o, _, _, hb⟩ := mint_ok auths s a amt s' h
    exact WF_baseMint s a amt s' hwf hb
  | transfer f t amt =>
    obtain ⟨_, _, hb⟩ := transfer_ok auths s f t amt s' h
    exact WF_baseTransfer s f t amt s' hwf hb
  | transfer_from sp f t amt =>
    obtain ⟨_, _, s1, hs1, hb⟩ := transfer_from_ok auths seq s sp f t amt s' h
    exact WF_baseTransfer s1 f t amt s' (WF_spendAllowance seq s f sp amt s1 hwf hs1) hb
  | approve o sp amt lu =>
    obtain ⟨_, hb⟩ := approve_ok auths s o sp amt lu s' h
    obtain ⟨_, hs'⟩ := baseApprove_ok s o sp amt lu s' hb
    subst hs'
    exact WF_congr s _ hwf rfl rfl
  | burn f amt =>
    obtain ⟨_, _, hb⟩ := burn_ok auths s f amt s' h
    exact WF_baseBurn s f amt s' hwf hb
  | burn_from sp f amt =>
    obtain ⟨_, _, s1, hs1, hb⟩ := burn_from_ok auths seq s sp f amt s' h
    exact WF_baseBurn s1 f amt s' (WF_spendAllowance seq s f sp amt s1 hwf hs1) hb
  | pause c =>
    obtain ⟨_, _, hs'⟩ := pause_ok auths s c s' h
    subst hs'
    exact WF_congr s _ hwf rfl rfl
  | unpause c =>
    obtain ⟨_, _, hs'⟩ := unpause_ok auths s c s' h
    subst hs'
    exact WF_congr s _ hwf rfl rfl
  | upgrade w =>
    obtain ⟨o, _, _, hs'⟩ := upgrade_ok auths s w s' h
    subst hs'
    exact WF_congr s _ hwf rfl rfl

/-- Success inversion for `__constructor`. -/
theorem construct_ok (owner : Addr) (initial_supply : Int) (s : CState)
    (h : __constructor owner initial_supply = .ok s) :
    ∃ s1, baseMint constructBase owner initial_supply = .ok s1 ∧
      s = { s1 with owner := some owner } := by
  unfold __constructor at h
  split at h
  next e heq => exact Except.noConfusion h
  next s1 heq =>
    cases h
    exact ⟨s1, heq, rfl⟩

theorem WF_initMeta : WF constructBase := by
  refine ⟨rfl, ?_, ?_⟩
  · intro p hp
    simp [constructBase, initState] at hp
  · show (0 : Int) ≤ I128_MAX
    unfold I128_MAX
    norm_num

theorem WF_construct (owner : Addr) (initial_supply : Int) (s : CState)
    (h : __constructor owner initial_supply = .ok s) : WF s := by
  obtain ⟨s1, hb, hs⟩ := construct_ok owner initial_supply s h
  subst hs
  exact WF_congr s1 _ (WF_baseMint _ owner initial_supply s1 WF_initMeta hb) rfl rfl

theorem Reachable_WF (s : CState) (h : Reachable s) : WF s := by
  induction h with
  | construct owner init s hc => exact WF_construct owner init s hc
  | step auths seq s s' c _ hx ih => exact WF_exec auths seq s c s' ih hx

/-- No entrypoint changes the stored owner or the metadata. -/
theorem exec_frame (auths : List Addr) (seq : Nat) (s : CState) (c : Call)
    (s' : CState) (h : exec auths seq s c = .ok s') :
    s'.owner = s.owner ∧ s'.metaDecimals = s.metaDecimals ∧
    s'.metaName = s.metaName ∧ s'.metaSymbol = s.metaSymbol := by
  cases c with
  | mint a amt =>
    obtain ⟨_, o, _, _, hb⟩ := mint_ok auths s a amt s' h
    obtain ⟨_, _, _, hs'⟩ := baseMint_ok s a amt s' hb
    subst hs'
    exact ⟨rfl, rfl, rfl, rfl⟩
  | transfer f t amt =>
    obtain ⟨_, _, hb⟩ := transfer_ok auths s f t amt s' h
    obtain ⟨_, _, hs'⟩ := baseTransfer_ok s f t amt s' hb
    subst hs'
    exact ⟨rfl, rfl, rfl, rfl⟩
  | transfer_from sp f t amt =>
    obtain ⟨_, _, s1, hs1, hb⟩ := transfer_from_ok auths seq s sp f t amt s' h
    obtain ⟨_, _, hs1'⟩ := spendAllowance_ok seq s f sp amt s1 hs1
    obtain ⟨_, _, hs'⟩ := baseTransfer_ok s1 f t amt s' hb
    subst hs'
    subst hs1'
    exact ⟨rfl, rfl, rfl, rfl⟩
  | approve o sp amt lu =>
    obtain ⟨_, hb⟩ := approve_ok auths s o sp amt lu s' h
    obtain ⟨_, hs'⟩ := baseApprove_ok s o sp amt lu s' hb
    subst hs'
    exact ⟨rfl, rfl, rfl, rfl⟩
  | burn f amt =>
    obtain ⟨_, _, hb⟩ := burn_ok auths s f amt s' h
    obtain ⟨_, _, hs'⟩ := baseBurn_ok s f amt s' hb
    subst hs'
    exact ⟨rfl, rfl, rfl, rfl⟩
  | burn_from sp f amt =>
    obtain ⟨_, _, s1, hs1, hb⟩ := burn_from_ok auths seq s sp f amt s' h
    obtain ⟨_, _, hs1'⟩ := spendAllowance_ok seq s f sp amt s1 hs1
    obtain ⟨_, _, hs'⟩ := baseBurn_ok s1 f amt s' hb
    subst hs'
    subst hs1'
    exact ⟨rfl, rfl, rfl, rfl⟩
  | pause c =>
    obtain ⟨_, _, hs'⟩ := pause_ok auths s c s' h
    subst hs'
    exact ⟨rfl, rfl, rfl, rfl⟩
  | unpause c =>
    obtain ⟨_, _, hs'⟩ := unpause_ok auths s c s' h
    subst hs'
    exact ⟨rfl, rfl, rfl, rfl⟩
  | upgrade w =>
    obtain ⟨o, _, _, hs'⟩ := upgrade_ok auths s w s' h
    subst hs'
    exact ⟨rfl, rfl, rfl, rfl⟩

/-- The constructor stores the owner and the fixed metadata. -/
theorem construct_frame (owner : Addr) (initial_supply : Int) (s : CState)
    (h : __constructor owner initial_supply = .ok s) :
    s.owner = some owner ∧ s.metaDecimals = 18 ∧
    s.metaName = "JobBoardToken" ∧ s.metaSymbol = "JBT" := by
  obtain ⟨s1, hb, hs⟩ := construct_ok owner initial_supply s h
  obtain ⟨_, _, _, hs1⟩ := baseMint_ok _ owner initial_supply s1 hb
  subst hs
  subst hs1
  exact ⟨rfl, rfl, rfl, rfl⟩

/-- A concrete constructed state (owner 7, initial supply 100), used to
instantiate reachability-based theorems. -/
def demoState : CState := persisted initState (__constructor 7 100)

theorem demoState_reachable : Reachable demoState :=
  Reachable.construct 7 100 demoState rfl

/-- A concrete paused state: `demoState` after the owner calls `pause`. -/
def pausedDemo : CState := persisted demoState (exec [7] 0 demoState (.pause 7))

theorem pausedDemo_reachable : Reachable pausedDemo :=
  Reachable.step [7] 0 demoState pausedDemo (.pause 7) demoState_reachable rfl

/-- C1: for every reachable state of the contract (any sequence of
successful construct, mint, transfer, transfer_from, approve, burn,
burn_from, pause, unpause, upgrade calls), the stored total supply
equals the sum of all per-holder balances. -/
theorem supply_eq_sum_of_reachable (s : CState) (h : Reachable s) :
    total_supply s = sumVals s.balances :=
  (Reachable_WF s h).1

theorem supply_eq_sum_of_reachable_witness :
    total_supply demoState = sumVals demoState.balances :=
  supply_eq_sum_of_reachable demoState demoState_reachable

/-- C2: whenever an entrypoint call fails with an error, the persisted
state after the call is exactly the state before it — failures have no
partial mutation (the host reverts every write of a failed call). -/
theorem error_leaves_state_unchanged (auths : List Addr) (seq : Nat) (s : CState)
    (c : Call) (e : Err) (h : exec auths seq s c = .error e) :
    persisted s (exec auths seq s c) = s := by
  rw [h]
  rfl

theorem error_leaves_state_unchanged_witness :
    exec [] 0 demoState (.transfer 1 2 5) = .error .Unauthorized ∧
    persisted demoState (exec [] 0 demoState (.transfer 1 2 5)) = demoState :=
  ⟨rfl, error_leaves_state_unchanged [] 0 demoState (.transfer 1 2 5) .Unauthorized rfl⟩

/-- C10: the metadata of every reachable state is the fixed constants
decimals = 18, name = "JobBoardToken", symbol = "JBT" — established by
the constructor for every input and preserved by every entrypoint. -/
theorem metadata_fixed (s : CState) (h : Reachable s) :
    decimals s = 18 ∧ name s = "JobBoardToken" ∧ symbol s = "JBT" := by
  induction h with
  | construct owner init s hc =>
    obtain ⟨_, h1, h2, h3⟩ := construct_frame owner init s hc
    exact ⟨h1, h2, h3⟩
  | step auths seq s s' c _ hx ih =>
    obtain ⟨_, h1, h2, h3⟩ := exec_frame auths seq s c s' hx
    refine ⟨?_, ?_, ?_⟩
    · show s'.metaDecimals = 18
      rw [h1]
      exact ih.1
    · show s'.metaName = "JobBoardToken"
      rw [h2]
      exact ih.2.1
    · show s'.metaSymbol = "JBT"
      rw [h3]
      exact ih.2.2

theorem metadata_fixed_witness :
    decimals pausedDemo = 18 ∧ name pausedDemo = "JobBoardToken" ∧
    symbol pausedDemo = "JBT" :=
  metadata_fixed pausedDemo pausedDemo_reachable

/-- C9: calling `pause` with the owner as (authorized) caller while the
contract is already Paused succeeds and leaves the state Paused — it is
an idempotent re-assert of the flag, not a failure. -/
theorem pause_while_paused_succeeds (auths : List Addr) (s : CState) (o : Addr)
    (hown : s.owner = some o) (hauth : o ∈ auths) (hp : s.pausedFlag = true) :
    pause auths s o = .ok s ∧ paused s = true := by
  obtain ⟨ow, pf, su, ba, al, md, mn, ms, cv⟩ := s
  have hown' : ow = some o := hown
  have hp' : pf = true := hp
  subst hown'
  subst hp'
  refine ⟨?_, rfl⟩
  unfold pause require_auth getOwner
  rw [if_pos hauth]
  simp only []
  rw [if_neg (by simp)]

theorem pause_while_paused_succeeds_witness :
    pause [7] pausedDemo 7 = .ok pausedDemo ∧ paused pausedDemo = true :=
  pause_while_paused_succeeds [7] pausedDemo 7 rfl (by simp) rfl

/-- C4 counterexample: with the contract Paused, `mint` invoked for a
non-owner caller with a valid own authorization proof fails with
ContractPaused, not Unauthorized — the `#[when_not_paused]` guard fires
before the owner check — so the claim's asserted error is wrong for
paused-state mint. -/
theorem privileged_claim_counterexample :
    pausedDemo.owner = some 7 ∧ (1 : Addr) ≠ 7 ∧
    mint [1] pausedDemo 0 5 = .error .ContractPaused ∧
    mint [1] pausedDemo 0 5 ≠ .error .Unauthorized := by
  refine ⟨rfl, by decide, rfl, ?_⟩
  intro h
  rw [show mint [1] pausedDemo 0 5 = .error .ContractPaused from rfl] at h
  exact Err.noConfusion (Except.error.inj h)

/-- C4 (amended): a privileged call on behalf of a caller different
from the stored owner changes nothing and fails, even though that
caller's own authorization proof is valid (the authorization
environment is exactly the caller). pause, unpause and upgrade fail
Unauthorized in every state (they are not pause-gated); mint fails
Unauthorized whenever it reaches its owner check, i.e. in the Active
state, while in the Paused state it fails ContractPaused instead (the
pause guard fires first). -/
theorem non_owner_calls_unauthorized (s : CState) (o c acct : Addr) (amt : Int)
    (nw : Nat) (hown : s.owner = some o) (hne : c ≠ o) :
    pause [c] s c = .error .Unauthorized ∧
    unpause [c] s c = .error .Unauthorized ∧
    upgrade [c] s nw = .error .Unauthorized ∧
    (s.pausedFlag = false → mint [c] s acct amt = .error .Unauthorized) ∧
    (s.pausedFlag = true → mint [c] s acct amt = .error .ContractPaused) ∧
    persisted s (pause [c] s c) = s ∧
    persisted s (unpause [c] s c) = s ∧
    persisted s (upgrade [c] s nw) = s ∧
    persisted s (mint [c] s acct amt) = s := by
  have hno : o ∉ ([c] : List Addr) := by
    simp only [List.mem_singleton]
    exact fun h => hne h.symm
  have hm : s.pausedFlag = false → mint [c] s acct amt = .error .Unauthorized := by
    intro hnp
    unfold mint getOwner require_auth
    rw [hnp, hown, if_neg (by simp)]
    simp only []
    rw [if_neg hno]
  have hmp : s.pausedFlag = true → mint [c] s acct amt = .error .ContractPaused := by
    intro hp
    simp [mint, hp]
  have hpa : pause [c] s c = .error .Unauthorized := by
    unfold pause getOwner require_auth
    rw [hown, if_pos (by simp)]
    simp only []
    rw [if_pos hne.symm]
  have hu : unpause [c] s c = .error .Unauthorized := by
    unfold unpause getOwner require_auth
    rw [hown, if_pos (by simp)]
    simp only []
    rw [if_pos hne.symm]
  have hup : upgrade [c] s nw = .error .Unauthorized := by
    unfold upgrade getOwner require_auth
    rw [hown]
    simp only []
    rw [if_neg hno]
  refine ⟨hpa, hu, hup, hm, hmp, by rw [hpa]; rfl, by rw [hu]; rfl,
    by rw [hup]; rfl, ?_⟩
  rcases hpf : s.pausedFlag
  · rw [hm hpf]
    rfl
  · rw [hmp hpf]
    rfl

theorem non_owner_calls_unauthorized_witness :
    pause [1] pausedDemo 1 = .error .Unauthorized ∧
    unpause [1] pausedDemo 1 = .error .Unauthorized ∧
    upgrade [1] pausedDemo 3 = .error .Unauthorized ∧
    mint [1] pausedDemo 0 5 = .error .ContractPaused ∧
    mint [1] demoState 0 5 = .error .Unauthorized ∧
    persisted pausedDemo (unpause [1] pausedDemo 1) = pausedDemo ∧
    persisted pausedDemo (mint [1] pausedDemo 0 5) = pausedDemo :=
  ⟨(non_owner_calls_unauthorized pausedDemo 7 1 0 5 3 rfl (by decide)).1,
   (non_owner_calls_unauthorized pausedDemo 7 1 0 5 3 rfl (by decide)).2.1,
   (non_owner_calls_unauthorized pausedDemo 7 1 0 5 3 rfl (by decide)).2.2.1,
   (non_owner_calls_unauthorized pausedDemo 7 1 0 5 3 rfl (by decide)).2.2.2.2.1 rfl,
   (non_owner_calls_unauthorized demoState 7 1 0 5 3 rfl (by decide)).2.2.2.1 rfl,
   (non_owner_calls_unauthorized pausedDemo 7 1 0 5 3 rfl (by decide)).2.2.2.2.2.2.1,
   (non_owner_calls_unauthorized pausedDemo 7 1 0 5 3 rfl (by decide)).2.2.2.2.2.2.2.2⟩

theorem getOwner_error (s : CState) (e : Err) (h : getOwner s = .error e) :
    e = .NotInitialized := by
  unfold getOwner at h
  rcases ho : s.owner with _ | o <;> rw [ho] at h <;> simp only [] at h
  · cases h
    rfl
  · exact Except.noConfusion h

theorem require_auth_error (auths : List Addr) (a : Addr) (e : Err)
    (h : require_auth auths a = .error e) : e = .Unauthorized := by
  unfold require_auth at h
  split_ifs at h
  cases h
  rfl

theorem baseMint_error (s : CState) (a : Addr) (amt : Int) (e : Err)
    (h : baseMint s a amt = .error e) :
    e = .NegativeAmount ∨ e = .ArithmeticOverflow := by
  unfold baseMint at h
  split_ifs at h <;> cases h <;> simp

theorem baseTransfer_error (s : CState) (f t : Addr) (amt : Int) (e : Err)
    (h : baseTransfer s f t amt = .error e) :
    e = .NegativeAmount ∨ e = .InsufficientBalance ∨ e = .ArithmeticOverflow := by
  unfold baseTransfer at h
  split_ifs at h <;> cases h <;> simp

theorem baseBurn_error (s : CState) (f : Addr) (amt : Int) (e : Err)
    (h : baseBurn s f amt = .error e) :
    e = .NegativeAmount ∨ e = .InsufficientBalance ∨ e = .ArithmeticOverflow := by
  unfold baseBurn at h
  split_ifs at h <;> cases h <;> simp

theorem spendAllowance_error (seq : Nat) (s : CState) (o sp : Addr) (amt : Int)
    (e : Err) (h : spendAllowance seq s o sp amt = .error e) :
    e = .AllowanceExpired ∨ e = .InsufficientAllowance := by
  unfold spendAllowance at h
  split_ifs at h <;> cases h <;> simp

/-- `mint` reports `ContractPaused` only when the flag is set. -/
theorem mint_paused_requires (auths : List Addr) (s : CState) (a : Addr) (amt : Int)
    (h : mint auths s a amt = .error .ContractPaused) : s.pausedFlag = true := by
  unfold mint at h
  split_ifs at h with hp
  · exact hp
  · split at h
    next e heq =>
      cases h
      exact Err.noConfusion (getOwner_error s _ heq)
    next o heq =>
      split at h
      next e heq2 =>
        cases h
        exact Err.noConfusion (require_auth_error auths o _ heq2)
      next u heq2 =>
        rcases baseMint_error s a amt _ h with h' | h' <;> exact Err.noConfusion h'

/-- `transfer` reports `ContractPaused` only when the flag is set. -/
theorem transfer_paused_requires (auths : List Addr) (s : CState) (f t : Addr)
    (amt : Int) (h : transfer auths s f t amt = .error .ContractPaused) :
    s.pausedFlag = true := by
  unfold transfer at h
  split_ifs at h with hp
  · exact hp
  · split at h
    next e heq =>
      cases h
      exact Err.noConfusion (require_auth_error auths f _ heq)
    next u heq =>
      rcases baseTransfer_error s f t amt _ h with h' | h' | h' <;>
        exact Err.noConfusion h'

/-- `transfer_from` reports `ContractPaused` only when the flag is set. -/
theorem transfer_from_paused_requires (auths : List Addr) (seq : Nat) (s : CState)
    (sp f t : Addr) (amt : Int)
    (h : transfer_from auths seq s sp f t amt = .error .ContractPaused) :
    s.pausedFlag = true := by
  unfold transfer_from at h
  split_ifs at h with hp
  · exact hp
  · split at h
    next e heq =>
      cases h
      exact Err.noConfusion (require_auth_error auths sp _ heq)
    next u heq =>
      split at h
      next e heq2 =>
        cases h
        rcases spendAllowance_error seq s f sp amt _ heq2 with h' | h' <;>
          exact Err.noConfusion h'
      next s1 heq2 =>
        rcases baseTransfer_error s1 f t amt _ h with h' | h' | h' <;>
          exact Err.noConfusion h'

/-- `burn` reports `ContractPaused` only when the flag is set. -/
theorem burn_paused_requires (auths : List Addr) (s : CState) (f : Addr) (amt : Int)
    (h : burn auths s f amt = .error .ContractPaused) : s.pausedFlag = true := by
  unfold burn at h
  split_ifs at h with hp
  · exact hp
  · split at h
    next e heq =>
      cases h
      exact Err.noConfusion (require_auth_error auths f _ heq)
    next u heq =>
      rcases baseBurn_error s f amt _ h with h' | h' | h' <;> exact Err.noConfusion h'

/-- `burn_from` reports `ContractPaused` only when the flag is set. -/
theorem burn_from_paused_requires (auths : List Addr) (seq : Nat) (s : CState)
    (sp f : Addr) (amt : Int)
    (h : burn_from auths seq s sp f amt = .error .ContractPaused) :
    s.pausedFlag = true := by
  unfold burn_from at h
  split_ifs at h with hp
  · exact hp
  · split at h
    next e heq =>
      cases h
      exact Err.noConfusion (require_auth_error auths sp _ heq)
    next u heq =>
      split at h
      next e heq2 =>
        cases h
        rcases spendAllowance_error seq s f sp amt _ heq2 with h' | h' <;>
          exact Err.noConfusion h'
      next s1 heq2 =>
        rcases baseBurn_error s1 f amt _ h with h' | h' | h' <;>
          exact Err.noConfusion h'

theorem okI128_eq_false (v : Int) : okI128 v = false ↔ (v < I128_MIN ∨ I128_MAX < v) := by
  simp only [okI128, decide_eq_false_iff_not]
  omega

theorem getBal_nonneg (s : CState) (a : Addr) (hwf : WF s) : 0 ≤ getBal s a :=
  mapGet_nonneg s.balances a hwf.2.1

theorem getBal_le_supply (s : CState) (a : Addr) (hwf : WF s) :
    getBal s a ≤ s.supply := by
  rw [hwf.1]
  exact mapGet_le_sumVals s.balances a hwf.2.1

theorem getBal_two_le_supply (s : CState) (a b : Addr) (hab : a ≠ b) (hwf : WF s) :
    getBal s a + getBal s b ≤ s.supply := by
  rw [hwf.1]
  exact mapGet_two_le_sumVals s.balances a b hab hwf.2.1

theorem supply_nonneg (s : CState) (hwf : WF s) : 0 ≤ s.supply := by
  rw [hwf.1]
  exact sumVals_nonneg s.balances hwf.2.1

theorem I128_MIN_lt_zero : I128_MIN ≤ 0 := by
  unfold I128_MIN
  norm_num

/-- With a non-negative amount covered by the sender's balance, a
well-formed state never overflows and `baseTransfer` succeeds with the
expected balance moves. -/
theorem baseTransfer_succeeds (s : CState) (f t : Addr) (amt : Int) (hwf : WF s)
    (hamt : 0 ≤ amt) (hle : amt ≤ getBal s f) (hne : f ≠ t) :
    ∃ s', baseTransfer s f t amt = .ok s' ∧
      getBal s' f = getBal s f - amt ∧
      getBal s' t = getBal s t + amt ∧
      s'.supply = s.supply ∧
      s'.allowances = s.allowances := by
  have h0 : 0 ≤ getBal s f := getBal_nonneg s f hwf
  have h0t : 0 ≤ getBal s t := getBal_nonneg s t hwf
  have hsup : s.supply ≤ I128_MAX := hwf.2.2
  have h2 := getBal_two_le_supply s f t hne hwf
  have hMIN := I128_MIN_lt_zero
  have h1le := getBal_le_supply s f hwf
  have hok1 : okI128 (getBal s f - amt) = true := by
    rw [okI128_iff]
    omega
  have e1 : getBal (setBal s f (getBal s f - amt)) t = getBal s t :=
    getBal_setBal_ne s f t _ hne
  have hok2 : okI128 (getBal (setBal s f (getBal s f - amt)) t + amt) = true := by
    rw [e1, okI128_iff]
    omega
  refine ⟨setBal (setBal s f (getBal s f - amt)) t
    (getBal (setBal s f (getBal s f - amt)) t + amt), ?_, ?_, ?_, rfl, rfl⟩
  · unfold baseTransfer
    rw [if_neg (not_lt.2 hamt), if_neg (not_lt.2 hle),
      if_neg (not_not_intro hok1), if_neg (not_not_intro hok2)]
  · rw [getBal_setBal_ne _ t f _ (Ne.symm hne), getBal_setBal_same]
  · rw [getBal_setBal_same, e1]

theorem baseTransfer_insufficient (s : CState) (f t : Addr) (amt : Int)
    (hamt : 0 ≤ amt) (hgt : getBal s f < amt) :
    baseTransfer s f t amt = .error .InsufficientBalance := by
  unfold baseTransfer
  rw [if_neg (not_lt.2 hamt), if_pos hgt]

theorem transfer_unfolds (auths : List Addr) (s : CState) (f t : Addr) (amt : Int)
    (hnp : s.pausedFlag = false) (hauth : f ∈ auths) :
    transfer auths s f t amt = baseTransfer s f t amt := by
  simp [transfer, require_auth, hnp, hauth]

/-- C6: for every transfer in the Active state (with the sender's
authorization, a non-negative amount, distinct accounts, and a
well-formed — in particular reachable — ledger): a covered amount
succeeds moving exactly `amount` from `from` to `to` with the total
supply unchanged, and an uncovered amount fails InsufficientBalance. -/
theorem transfer_spec (auths : List Addr) (s : CState) (f t : Addr) (amt : Int)
    (hwf : WF s) (hnp : s.pausedFlag = false) (hauth : f ∈ auths) (hamt : 0 ≤ amt)
    (hne : f ≠ t) :
    (amt ≤ balance s f →
      ∃ s', transfer auths s f t amt = .ok s' ∧
        balance s' f = balance s f - amt ∧
        balance s' t = balance s t + amt ∧
        total_supply s' = total_supply s) ∧
    (balance s f < amt →
      transfer auths s f t amt = .error .InsufficientBalance) := by
  constructor
  · intro hle
    obtain ⟨s', h1, h2, h3, h4, _⟩ := baseTransfer_succeeds s f t amt hwf hamt hle hne
    refine ⟨s', ?_, h2, h3, h4⟩
    rw [transfer_unfolds auths s f t amt hnp hauth]
    exact h1
  · intro hgt
    rw [transfer_unfolds auths s f t amt hnp hauth]
    exact baseTransfer_insufficient s f t amt hamt hgt

theorem transfer_spec_witness :
    ∃ s', transfer [7] demoState 7 1 30 = .ok s' ∧
      balance s' 7 = balance demoState 7 - 30 ∧
      balance s' 1 = balance demoState 1 + 30 ∧
      total_supply s' = total_supply demoState :=
  (transfer_spec [7] demoState 7 1 30 (Reachable_WF demoState demoState_reachable)
    rfl (by decide) (by decide) (by decide)).1 (by decide)

theorem baseMint_negative (s : CState) (a : Addr) (amt : Int) (hamt : amt < 0) :
    baseMint s a amt = .error .NegativeAmount := by
  unfold baseMint
  rw [if_pos hamt]

/-- With non-negative amount and both results in range (a well-formed
state supplies the lower bounds), `baseMint` succeeds with the expected
increments. -/
theorem baseMint_succeeds (s : CState) (a : Addr) (amt : Int) (hwf : WF s)
    (hamt : 0 ≤ amt) (hb : getBal s a + amt ≤ I128_MAX)
    (hs : s.supply + amt ≤ I128_MAX) :
    ∃ s', baseMint s a amt = .ok s' ∧
      getBal s' a = getBal s a + amt ∧
      s'.supply = s.supply + amt := by
  have h0 : 0 ≤ getBal s a := getBal_nonneg s a hwf
  have h0s : 0 ≤ s.supply := supply_nonneg s hwf
  have hMIN := I128_MIN_lt_zero
  have hok1 : okI128 (getBal s a + amt) = true := by
    rw [okI128_iff]
    omega
  have hok2 : okI128 (s.supply + amt) = true := by
    rw [okI128_iff]
    omega
  refine ⟨{ setBal s a (getBal s a + amt) with supply := s.supply + amt },
    ?_, ?_, rfl⟩
  · unfold baseMint
    rw [if_neg (not_lt.2 hamt), if_neg (not_not_intro hok1),
      if_neg (not_not_intro hok2)]
  · show mapGet 0 (mapSet s.balances a (getBal s a + amt)) a = getBal s a + amt
    exact mapGet_mapSet_same 0 s.balances a (getBal s a + amt)

theorem baseMint_overflow (s : CState) (a : Addr) (amt : Int) (hamt : 0 ≤ amt)
    (hover : I128_MAX < getBal s a + amt ∨ I128_MAX < s.supply + amt) :
    baseMint s a amt = .error .ArithmeticOverflow := by
  unfold baseMint
  rw [if_neg (not_lt.2 hamt)]
  by_cases hb : okI128 (getBal s a + amt) = true
  · rw [if_neg (not_not_intro hb)]
    have hs : okI128 (s.supply + amt) = false := by
      rw [okI128_eq_false]
      have := (okI128_iff _).mp hb
      rcases hover with h | h
      · omega
      · omega
    rw [if_pos (by simp [hs])]
  · rw [if_pos hb]

theorem mint_unfolds (auths : List Addr) (s : CState) (a o : Addr) (amt : Int)
    (hnp : s.pausedFlag = false) (hown : s.owner = some o) (hauth : o ∈ auths) :
    mint auths s a amt = baseMint s a amt := by
  simp [mint, getOwner, require_auth, hnp, hown, hauth]

/-- C7: minting in the Active state with the owner's privilege requires
a non-negative amount; on success (no overflow) it increases the
recipient's balance and the total supply by exactly the amount; when
either the balance or the supply would exceed the i128 range it fails
ArithmeticOverflow. Stated over well-formed (in particular reachable)
states. -/
theorem mint_spec (auths : List Addr) (s : CState) (acct o : Addr) (amt : Int)
    (hwf : WF s) (hnp : s.pausedFlag = false) (hown : s.owner = some o)
    (hauth : o ∈ auths) :
    (amt < 0 → mint auths s acct amt = .error .NegativeAmount) ∧
    (0 ≤ amt → balance s acct + amt ≤ I128_MAX → total_supply s + amt ≤ I128_MAX →
      ∃ s', mint auths s acct amt = .ok s' ∧
        balance s' acct = balance s acct + amt ∧
        total_supply s' = total_supply s + amt) ∧
    (0 ≤ amt →
      (I128_MAX < balance s acct + amt ∨ I128_MAX < total_supply s + amt) →
      mint auths s acct amt = .error .ArithmeticOverflow) := by
  refine ⟨?_, ?_, ?_⟩
  · intro hamt
    rw [mint_unfolds auths s acct o amt hnp hown hauth]
    exact baseMint_negative s acct amt hamt
  · intro hamt hb hs
    obtain ⟨s', h1, h2, h3⟩ := baseMint_succeeds s acct amt hwf hamt hb hs
    refine ⟨s', ?_, h2, h3⟩
    rw [mint_unfolds auths s acct o amt hnp hown hauth]
    exact h1
  · intro hamt hover
    rw [mint_unfolds auths s acct o amt hnp hown hauth]
    exact baseMint_overflow s acct amt hamt hover

theorem mint_spec_witness :
    ∃ s', mint [7] demoState 7 50 = .ok s' ∧
      balance s' 7 = balance demoState 7 + 50 ∧
      total_supply s' = total_supply demoState + 50 :=
  (mint_spec [7] demoState 7 7 50 (Reachable_WF demoState demoState_reachable)
    rfl rfl (by decide)).2.1 (by decide) (by decide) (by decide)

theorem spendAllowance_succeeds (seq : Nat) (s : CState) (o sp : Addr) (amt : Int)
    (hlive : seq ≤ (getAllow s o sp).live_until)
    (hallow : amt ≤ (getAllow s o sp).amount) :
    spendAllowance seq s o sp amt =
      .ok (setAllow s o sp
        ⟨(getAllow s o sp).amount - amt, (getAllow s o sp).live_until⟩) := by
  unfold spendAllowance
  rw [if_neg (not_lt.2 hlive), if_neg (not_lt.2 hallow)]

theorem spendAllowance_expired (seq : Nat) (s : CState) (o sp : Addr) (amt : Int)
    (hexp : (getAllow s o sp).live_until < seq) :
    spendAllowance seq s o sp amt = .error .AllowanceExpired := by
  unfold spendAllowance
  rw [if_pos hexp]

theorem spendAllowance_insufficient (seq : Nat) (s : CState) (o sp : Addr)
    (amt : Int) (hlive : seq ≤ (getAllow s o sp).live_until)
    (hlt : (getAllow s o sp).amount < amt) :
    spendAllowance seq s o sp amt = .error .InsufficientAllowance := by
  unfold spendAllowance
  rw [if_neg (not_lt.2 hlive), if_pos hlt]

theorem transfer_from_unfolds (auths : List Addr) (seq : Nat) (s : CState)
    (sp f t : Addr) (amt : Int) (s1 : CState) (hnp : s.pausedFlag = false)
    (hauth : sp ∈ auths) (hs1 : spendAllowance seq s f sp amt = .ok s1) :
    transfer_from auths seq s sp f t amt = baseTransfer s1 f t amt := by
  simp [transfer_from, require_auth, hnp, hauth, hs1]

theorem transfer_from_spend_error (auths : List Addr) (seq : Nat) (s : CState)
    (sp f t : Addr) (amt : Int) (e : Err) (hnp : s.pausedFlag = false)
    (hauth : sp ∈ auths) (he : spendAllowance seq s f sp amt = .error e) :
    transfer_from auths seq s sp f t amt = .error e := by
  simp [transfer_from, require_auth, hnp, hauth, he]

/-- A state with a live, sufficient allowance for (1, 2) but a zero
balance for holder 1, exhibiting that a live allowance alone does not
make `transfer_from` succeed. -/
def c5CexState : CState :=
  { owner := some 7
    pausedFlag := false
    supply := 0
    balances := []
    allowances := [((1, 2), ⟨10, 100⟩)]
    metaDecimals := 18
    metaName := "JobBoardToken"
    metaSymbol := "JBT"
    codeVersion := 0 }

/-- C5 counterexample: the stored allowance for (from 1, spender 2) has
expiry 100 ≥ current sequence 0 and amount 10 ≥ the requested 5, yet
`transfer_from` does not succeed — it fails InsufficientBalance because
`Balances[from] = 0 < 5`; the claim omits the balance precondition. -/
theorem transfer_from_claim_counterexample :
    (0 : Nat) ≤ (getAllow c5CexState 1 2).live_until ∧
    (5 : Int) ≤ (getAllow c5CexState 1 2).amount ∧
    transfer_from [2] 0 c5CexState 2 1 3 5 = .error .InsufficientBalance := by
  refine ⟨by decide, by decide, ?_⟩
  rfl

/-- C5 (amended): under the spender's authorization, a non-negative
amount, distinct accounts, Active state and a well-formed ledger:
if the (from, spender) allowance is live (expiry ≥ current sequence),
its amount covers the request AND `Balances[from]` covers the request,
the call succeeds, decreasing the allowance by exactly the amount
(spend-down), moving the balance and keeping the supply; an expired
allowance fails AllowanceExpired; a live but insufficient allowance
fails InsufficientAllowance; and every successful call had a live
allowance covering the amount (no spending beyond it). -/
theorem transfer_from_spec (auths : List Addr) (seq : Nat) (s : CState)
    (sp f t : Addr) (amt : Int) (hwf : WF s) (hnp : s.pausedFlag = false)
    (hauth : sp ∈ auths) (hamt : 0 ≤ amt) (hne : f ≠ t) :
    (seq ≤ (getAllow s f sp).live_until → amt ≤ (getAllow s f sp).amount →
      amt ≤ balance s f →
      ∃ s', transfer_from auths seq s sp f t amt = .ok s' ∧
        allowance s' f sp = allowance s f sp - amt ∧
        balance s' f = balance s f - amt ∧
        balance s' t = balance s t + amt ∧
        total_supply s' = total_supply s) ∧
    ((getAllow s f sp).live_until < seq →
      transfer_from auths seq s sp f t amt = .error .AllowanceExpired) ∧
    (seq ≤ (getAllow s f sp).live_until → (getAllow s f sp).amount < amt →
      transfer_from auths seq s sp f t amt = .error .InsufficientAllowance) ∧
    (∀ s', transfer_from auths seq s sp f t amt = .ok s' →
      seq ≤ (getAllow s f sp).live_until ∧ amt ≤ (getAllow s f sp).amount) := by
  refine ⟨?_, ?_, ?_, ?_⟩
  · intro hlive hallow hbal
    have hs1 := spendAllowance_succeeds seq s f sp amt hlive hallow
    have hwf1 : WF (setAllow s f sp
        ⟨(getAllow s f sp).amount - amt, (getAllow s f sp).live_until⟩) :=
      WF_congr s _ hwf rfl rfl
    have hbal1 : amt ≤ getBal (setAllow s f sp
        ⟨(getAllow s f sp).amount - amt, (getAllow s f sp).live_until⟩) f := by
      rw [getBal_setAllow]
      exact hbal
    obtain ⟨s', h1, h2, h3, h4, h5⟩ :=
      baseTransfer_succeeds _ f t amt hwf1 hamt hbal1 hne
    refine ⟨s', ?_, ?_, ?_, ?_, ?_⟩
    · rw [transfer_from_unfolds auths seq s sp f t amt _ hnp hauth hs1]
      exact h1
    · show (getAllow s' f sp).amount = (getAllow s f sp).amount - amt
      have hall : getAllow s' f sp =
          ⟨(getAllow s f sp).amount - amt, (getAllow s f sp).live_until⟩ := by
        unfold getAllow
        rw [h5, setAllow_allowances]
        exact mapGet_mapSet_same _ _ _ _
      rw [hall]
    · show getBal s' f = getBal s f - amt
      rw [h2, getBal_setAllow]
    · show getBal s' t = getBal s t + amt
      rw [h3, getBal_setAllow]
    · show s'.supply = s.supply
      rw [h4, setAllow_supply]
  · intro hexp
    exact transfer_from_spend_error auths seq s sp f t amt _ hnp hauth
      (spendAllowance_expired seq s f sp amt hexp)
  · intro hlive hlt
    exact transfer_from_spend_error auths seq s sp f t amt _ hnp hauth
      (spendAllowance_insufficient seq s f sp amt hlive hlt)
  · intro s' h
    obtain ⟨_, _, s1, hs1, _⟩ := transfer_from_ok auths seq s sp f t amt s' h
    obtain ⟨ha, hb, _⟩ := spendAllowance_ok seq s f sp amt s1 hs1
    exact ⟨ha, hb⟩

/-- `demoState` after the owner approves spender 2 for 40 until
sequence 50. -/
def approvedDemo : CState := persisted demoState (exec [7] 5 demoState (.approve 7 2 40 50))

theorem approvedDemo_reachable : Reachable approvedDemo :=
  Reachable.step [7] 5 demoState approvedDemo (.approve 7 2 40 50)
    demoState_reachable rfl

theorem transfer_from_spec_witness :
    ∃ s', transfer_from [2] 10 approvedDemo 2 7 3 15 = .ok s' ∧
      allowance s' 7 2 = allowance approvedDemo 7 2 - 15 ∧
      balance s' 7 = balance approvedDemo 7 - 15 ∧
      balance s' 3 = balance approvedDemo 3 + 15 ∧
      total_supply s' = total_supply approvedDemo :=
  (transfer_from_spec [2] 10 approvedDemo 2 7 3 15
    (Reachable_WF approvedDemo approvedDemo_reachable) rfl (by decide) (by decide)
    (by decide)).1 (by decide) (by decide) (by decide)

/-- C8: the read-only allowance(o, s) returns the currently stored
allowance amount, including when the stored entry's expiry sequence is
below the current sequence: expiry only makes spending fail
(AllowanceExpired) and the stored entry is not auto-cleared — the failed
spend leaves the state, including the stored allowance, untouched. -/
theorem allowance_returns_stored (s : CState) (o sp t : Addr) (auths : List Addr)
    (seq : Nat) (amt : Int) (hnp : s.pausedFlag = false) (hauth : sp ∈ auths)
    (hexp : (getAllow s o sp).live_until < seq) :
    allowance s o sp = (getAllow s o sp).amount ∧
    transfer_from auths seq s sp o t amt = .error .AllowanceExpired ∧
    persisted s (transfer_from auths seq s sp o t amt) = s := by
  have h2 : transfer_from auths seq s sp o t amt = .error .AllowanceExpired :=
    transfer_from_spend_error auths seq s sp o t amt _ hnp hauth
      (spendAllowance_expired seq s o sp amt hexp)
  exact ⟨rfl, h2, by rw [h2]; rfl⟩

theorem allowance_returns_stored_witness :
    allowance approvedDemo 7 2 = (getAllow approvedDemo 7 2).amount ∧
    transfer_from [2] 60 approvedDemo 2 7 3 5 = .error .AllowanceExpired ∧
    persisted approvedDemo (transfer_from [2] 60 approvedDemo 2 7 3 5) =
      approvedDemo :=
  allowance_returns_stored approvedDemo 7 2 3 [2] 60 5 rfl (by decide) (by decide)

/-- With a non-negative amount covered by the holder's balance, a
well-formed state never overflows and `baseBurn` succeeds, destroying
the amount from balance and supply. -/
theorem baseBurn_succeeds (s : CState) (f : Addr) (amt : Int) (hwf : WF s)
    (hamt : 0 ≤ amt) (hle : amt ≤ getBal s f) :
    ∃ s', baseBurn s f amt = .ok s' ∧
      getBal s' f = getBal s f - amt ∧
      s'.supply = s.supply - amt ∧
      s'.allowances = s.allowances := by
  have h0 : 0 ≤ getBal s f := getBal_nonneg s f hwf
  have hsup : s.supply ≤ I128_MAX := hwf.2.2
  have hble := getBal_le_supply s f hwf
  have hMIN := I128_MIN_lt_zero
  have hsupnn := supply_nonneg s hwf
  have hok1 : okI128 (getBal s f - amt) = true := by
    rw [okI128_iff]
    omega
  have hok2 : okI128 (s.supply - amt) = true := by
    rw [okI128_iff]
    omega
  refine ⟨{ setBal s f (getBal s f - amt) with supply := s.supply - amt },
    ?_, ?_, rfl, rfl⟩
  · unfold baseBurn
    rw [if_neg (not_lt.2 hamt), if_neg (not_lt.2 hle),
      if_neg (not_not_intro hok1), if_neg (not_not_intro hok2)]
  · show mapGet 0 (mapSet s.balances f (getBal s f - amt)) f = getBal s f - amt
    exact mapGet_mapSet_same 0 s.balances f (getBal s f - amt)

theorem burn_unfolds (auths : List Addr) (s : CState) (f : Addr) (amt : Int)
    (hnp : s.pausedFlag = false) (hauth : f ∈ auths) :
    burn auths s f amt = baseBurn s f amt := by
  simp [burn, require_auth, hnp, hauth]

theorem burn_from_unfolds (auths : List Addr) (seq : Nat) (s : CState)
    (sp f : Addr) (amt : Int) (s1 : CState) (hnp : s.pausedFlag = false)
    (hauth : sp ∈ auths) (hs1 : spendAllowance seq s f sp amt = .ok s1) :
    burn_from auths seq s sp f amt = baseBurn s1 f amt := by
  simp [burn_from, require_auth, hnp, hauth, hs1]

/-- C3: while the pause flag is set, each of the five guarded
entrypoints — mint, transfer, transfer_from, burn, burn_from — fails
with ContractPaused for every argument (and by C2 changes nothing);
while Active, none of them can fail with ContractPaused, and each of
the five succeeds given its other preconditions (owner-authorized mint
without overflow, covered balances, live and sufficient allowances);
and approve and the read-only entrypoints, including paused(), are not
gated: the pause flag never makes approve fail and never changes any
read. -/
theorem pause_gating (auths : List Addr) (seq : Nat) (s : CState)
    (a f t sp ow : Addr) (amt : Int) (lu : Nat) (b : Bool) :
    (s.pausedFlag = true →
      mint auths s a amt = .error .ContractPaused ∧
      transfer auths s f t amt = .error .ContractPaused ∧
      transfer_from auths seq s sp f t amt = .error .ContractPaused ∧
      burn auths s f amt = .error .ContractPaused ∧
      burn_from auths seq s sp f amt = .error .ContractPaused) ∧
    (s.pausedFlag = false →
      mint auths s a amt ≠ .error .ContractPaused ∧
      transfer auths s f t amt ≠ .error .ContractPaused ∧
      transfer_from auths seq s sp f t amt ≠ .error .ContractPaused ∧
      burn auths s f amt ≠ .error .ContractPaused ∧
      burn_from auths seq s sp f amt ≠ .error .ContractPaused) ∧
    approve auths s ow sp amt lu ≠ .error .ContractPaused ∧
    (approve auths { s with pausedFlag := b } ow sp amt lu).isOk =
      (approve auths s ow sp amt lu).isOk ∧
    balance { s with pausedFlag := b } a = balance s a ∧
    total_supply { s with pausedFlag := b } = total_supply s ∧
    allowance { s with pausedFlag := b } ow sp = allowance s ow sp ∧
    paused { s with pausedFlag := b } = b ∧
    (s.pausedFlag = false → WF s → 0 ≤ amt →
      (s.owner = some ow → ow ∈ auths → balance s a + amt ≤ I128_MAX →
        total_supply s + amt ≤ I128_MAX → ∃ s', mint auths s a amt = .ok s') ∧
      (f ∈ auths → amt ≤ balance s f → f ≠ t →
        ∃ s', transfer auths s f t amt = .ok s') ∧
      (sp ∈ auths → seq ≤ (getAllow s f sp).live_until →
        amt ≤ (getAllow s f sp).amount → amt ≤ balance s f → f ≠ t →
        ∃ s', transfer_from auths seq s sp f t amt = .ok s') ∧
      (f ∈ auths → amt ≤ balance s f → ∃ s', burn auths s f amt = .ok s') ∧
      (sp ∈ auths → seq ≤ (getAllow s f sp).live_until →
        amt ≤ (getAllow s f sp).amount → amt ≤ balance s f →
        ∃ s', burn_from auths seq s sp f amt = .ok s')) := by
  refine ⟨?_, ?_, ?_, ?_, rfl, rfl, rfl, rfl, ?_⟩
  · intro hp
    refine ⟨?_, ?_, ?_, ?_, ?_⟩ <;> simp [mint, transfer, transfer_from, burn,
      burn_from, hp]
  · intro hnp
    refine ⟨fun hc => ?_, fun hc => ?_, fun hc => ?_, fun hc => ?_, fun hc => ?_⟩
    · rw [mint_paused_requires auths s a amt hc] at hnp
      exact Bool.noConfusion hnp
    · rw [transfer_paused_requires auths s f t amt hc] at hnp
      exact Bool.noConfusion hnp
    · rw [transfer_from_paused_requires auths seq s sp f t amt hc] at hnp
      exact Bool.noConfusion hnp
    · rw [burn_paused_requires auths s f amt hc] at hnp
      exact Bool.noConfusion hnp
    · rw [burn_from_paused_requires auths seq s sp f amt hc] at hnp
      exact Bool.noConfusion hnp
  · intro hc
    unfold approve at hc
    split at hc
    next e heq =>
      cases hc
      exact Err.noConfusion (require_auth_error auths ow _ heq)
    next u heq =>
      unfold baseApprove at hc
      split_ifs at hc
      exact Err.noConfusion (Except.error.inj hc)
  · by_cases h1 : ow ∈ auths
    · by_cases h2 : amt < 0
      · simp [approve, require_auth, baseApprove, Except.isOk, Except.toBool, h1, h2]
      · simp [approve, require_auth, baseApprove, Except.isOk, Except.toBool, h1, h2]
    · simp [approve, require_auth, Except.isOk, h1]
  · intro hnp hwf hamt
    refine ⟨?_, ?_, ?_, ?_, ?_⟩
    · intro hown hauth hb hs
      obtain ⟨s', h1, _, _⟩ := baseMint_succeeds s a amt hwf hamt hb hs
      refine ⟨s', ?_⟩
      rw [mint_unfolds auths s a ow amt hnp hown hauth]
      exact h1
    · intro hauth hle hne
      obtain ⟨s', h1, _, _, _, _⟩ := baseTransfer_succeeds s f t amt hwf hamt hle hne
      refine ⟨s', ?_⟩
      rw [transfer_unfolds auths s f t amt hnp hauth]
      exact h1
    · intro hauth hlive hallow hbal hne
      have hs1 := spendAllowance_succeeds seq s f sp amt hlive hallow
      have hwf1 : WF (setAllow s f sp
          ⟨(getAllow s f sp).amount - amt, (getAllow s f sp).live_until⟩) :=
        WF_congr s _ hwf rfl rfl
      have hbal1 : amt ≤ getBal (setAllow s f sp
          ⟨(getAllow s f sp).amount - amt, (getAllow s f sp).live_until⟩) f := by
        rw [getBal_setAllow]
        exact hbal
      obtain ⟨s', h1, _, _, _, _⟩ := baseTransfer_succeeds _ f t amt hwf1 hamt hbal1 hne
      refine ⟨s', ?_⟩
      rw [transfer_from_unfolds auths seq s sp f t amt _ hnp hauth hs1]
      exact h1
    · intro hauth hle
      obtain ⟨s', h1, _, _, _⟩ := baseBurn_succeeds s f amt hwf hamt hle
      refine ⟨s', ?_⟩
      rw [burn_unfolds auths s f amt hnp hauth]
      exact h1
    · intro hauth hlive hallow hbal
      have hs1 := spendAllowance_succeeds seq s f sp amt hlive hallow
      have hwf1 : WF (setAllow s f sp
          ⟨(getAllow s f sp).amount - amt, (getAllow s f sp).live_until⟩) :=
        WF_congr s _ hwf rfl rfl
      have hbal1 : amt ≤ getBal (setAllow s f sp
          ⟨(getAllow s f sp).amount - amt, (getAllow s f sp).live_until⟩) f := by
        rw [getBal_setAllow]
        exact hbal
      obtain ⟨s', h1, _, _, _⟩ := baseBurn_succeeds _ f amt hwf1 hamt hbal1
      refine ⟨s', ?_⟩
      rw [burn_from_unfolds auths seq s sp f amt _ hnp hauth hs1]
      exact h1

theorem pause_gating_witness :
    transfer [7] pausedDemo 7 1 5 = .error .ContractPaused ∧
    mint [7] pausedDemo 7 5 = .error .ContractPaused ∧
    (∃ s', burn [7] demoState 7 5 = .ok s') ∧
    (∃ s', burn_from [2] 10 approvedDemo 2 7 15 = .ok s') :=
  ⟨((pause_gating [7] 0 pausedDemo 7 7 1 7 7 5 0 true).1 rfl).2.1,
   ((pause_gating [7] 0 pausedDemo 7 7 1 7 7 5 0 true).1 rfl).1,
   ((pause_gating [7] 0 demoState 7 7 1 7 7 5 0 true).2.2.2.2.2.2.2.2 rfl
     (Reachable_WF demoState demoState_reachable) (by decide)).2.2.2.1 (by decide)
     (by decide),
   ((pause_gating [2] 10 approvedDemo 7 7 3 2 7 15 0 true).2.2.2.2.2.2.2.2 rfl
     (Reachable_WF approvedDemo approvedDemo_reachable) (by decide)).2.2.2.2
     (by decide) (by decide) (by decide) (by decide)⟩

end JobBoard
